import Mathlib

/-!
Verification of the client-side signature capture / offline-sync /
slot-allocation engine of the sea-pay processor web frontend
(src/app/web/frontend/signature-manager.js).

The development shallowly embeds the relevant functions of the
SignatureManager class:

* the LocalOutbox (localStorage key local_signatures) as a list of
  Signature records, with saveToLocalStorage, removeFromLocalStorage,
  loadLocalSignatures, uploadSignature, saveSignature and syncSignatures
  translated line by line from the source;
* the stroke smoother (_strokeStart, _strokeMove, _addPoint) over the
  real numbers, with the velocity-mapped width model, the adaptive
  resampling and the Catmull-Rom segment rendering;
* renderAssignments duplicate detection over an association list that
  models the assignments object received from the server.

Network effects are embedded by passing the response of the single
round-trip of each function as an argument: none stands for a thrown
fetch or json error, some r for a parsed response body.
-/

/- ===================== Outbox data model ===================== -/

/-- Signature record as assembled by saveSignature (signature-manager.js
lines 532-540): the fields of the JSON object stored in the outbox and
posted to the create endpoint. -/
structure Signature where
  local_id : String
  name : String
  role : String
  signature_base64 : String
  device_id : String
  device_name : String
  created : String
deriving DecidableEq

/-- Response body of the create endpoint: status plus an optional server id. -/
structure UploadResponse where
  status : String
  id : Option String
deriving DecidableEq

/-- Response body of the bulk sync endpoint: status, list of synced ids,
and a message used on failure. -/
structure SyncResponse where
  status : String
  synced : List String
  message : String
deriving DecidableEq

/-- Decimal string of a natural number, most significant digit first,
modelling the JavaScript number-to-string conversion used in
the expression forming local ids. -/
def natToDecimalString (n : Nat) : String :=
  if n = 0 then "0" else ((Nat.digits 10 n).reverse.map Nat.digitChar).asString

/-- The signature object literal built in saveSignature (lines 532-540):
local_id is the string local_ followed by the decimal value of Date.now
(the argument nowMs). -/
def mkSignatureData (name role base64 deviceId deviceName created : String)
    (nowMs : Nat) : Signature :=
  { local_id := "local_" ++ natToDecimalString nowMs
    name := name
    role := role
    signature_base64 := base64
    device_id := deviceId
    device_name := deviceName
    created := created }

/-- saveToLocalStorage (lines 560-564): parse the stored array, push the
new record, write the array back.  The outbox argument is the parsed
content of the local_signatures key. -/
def saveToLocalStorage (outbox : List Signature) (s : Signature) : List Signature :=
  outbox ++ [s]

/-- loadLocalSignatures (lines 566-570): returns the parsed stored array.
Also the listPending operation of the spec. -/
def loadLocalSignatures (outbox : List Signature) : List Signature :=
  outbox

/-- removeFromLocalStorage (lines 596-600): keep every record whose
local_id differs from the given one, write the array back. -/
def removeFromLocalStorage (outbox : List Signature) (lid : String) : List Signature :=
  outbox.filter (fun s => s.local_id ≠ lid)

/-- Whether an upload response body carries the explicit success status
(line 584); none models a thrown fetch or json error. -/
def respIsSuccess (resp : Option UploadResponse) : Bool :=
  match resp with
  | none => false
  | some r => r.status = "success"

/-- uploadSignature (lines 572-594): POST one signature; if the response
body has status success, remove the record from the outbox and return
true; on any other status, or when fetch or json throws (resp = none,
the catch branch), return false without touching the outbox.  The result
pairs the outbox after the call with the returned boolean. -/
def uploadSignature (outbox : List Signature) (s : Signature)
    (resp : Option UploadResponse) : List Signature × Bool :=
  match resp with
  | none => (outbox, false)
  | some r =>
    if r.status = "success" then
      (removeFromLocalStorage outbox s.local_id, true)
    else
      (outbox, false)

/-- The user-visible outcome of saveSignature. -/
inductive SaveOutcome where
  | rejectedName
  | rejectedPoints
  | savedSynced
  | savedLocalWarning
  | savedOfflineInfo
deriving DecidableEq

/-- saveSignature (lines 514-558): validate the name and the point count,
build the signature record, persist it to the outbox, then, when online,
attempt the upload; offline, keep it queued and report an informational
save.  pointsLen is this.points.length, nowMs is Date.now, online is
navigator.onLine, resp the create-endpoint round-trip. -/
def saveSignature (outbox : List Signature)
    (name role base64 deviceId deviceName created : String)
    (pointsLen nowMs : Nat) (online : Bool)
    (resp : Option UploadResponse) : List Signature × SaveOutcome :=
  if name = "" then (outbox, .rejectedName)
  else if pointsLen < 10 then (outbox, .rejectedPoints)
  else
    let sig := mkSignatureData name role base64 deviceId deviceName created nowMs
    let ob1 := saveToLocalStorage outbox sig
    if online then
      let up := uploadSignature ob1 sig resp
      if up.2 then (up.1, .savedSynced) else (up.1, .savedLocalWarning)
    else
      (ob1, .savedOfflineInfo)

/-- The user-visible outcome of syncSignatures. -/
inductive SyncResult where
  | nothingToSync
  | cannotSyncOffline
  | syncedOk (count : Nat)
  | syncFailedMsg (msg : String)
  | syncFailedError
deriving DecidableEq

/-- Result of one syncSignatures invocation: the outbox after the call,
the reported outcome, and whether a network request was issued. -/
structure SyncStep where
  outbox : List Signature
  result : SyncResult
  requested : Bool
deriving DecidableEq

/-- syncSignatures (lines 602-639): an empty outbox reports nothing to
sync; a non-empty outbox while offline reports cannot sync offline; both
without a network request.  Otherwise the full queue is posted to the
bulk endpoint: on body status success the stored array is overwritten
with the empty array and the count of server-confirmed ids is reported;
on any other status, or a thrown error (resp = none), the outbox is left
as it was. -/
def syncSignatures (outbox : List Signature) (online : Bool)
    (resp : Option SyncResponse) : SyncStep :=
  if outbox.length = 0 then ⟨outbox, .nothingToSync, false⟩
  else if !online then ⟨outbox, .cannotSyncOffline, false⟩
  else
    match resp with
    | none => ⟨outbox, .syncFailedError, true⟩
    | some r =>
      if r.status = "success" then ⟨[], .syncedOk r.synced.length, true⟩
      else ⟨outbox, .syncFailedMsg r.message, true⟩

/- ===================== Concurrent sync model ===================== -/

/-- The request body issued by one invocation of syncSignatures when it
reaches its fetch call, none when the invocation returns before fetching.
The guard checks of the function body (lines 602-613) consult only the
stored outbox and navigator.onLine; the class keeps no in-flight flag
that a concurrent invocation could observe. -/
def syncRequestPayload (outbox : List Signature) (online : Bool) :
    Option (List Signature) :=
  if outbox.length = 0 then none
  else if !online then none
  else some outbox

/-- Two invocations of syncSignatures that both start before either
response arrives (for example the automatic trigger of handleOnline,
lines 906-917, and a press of the sync button): each runs the code up to
its fetch against the same stored outbox, because the code writes
localStorage only after a response and consults no in-flight guard.
The result collects the issued request bodies in order. -/
def twoConcurrentSyncStarts (outbox : List Signature) (online : Bool) :
    List (List Signature) :=
  (syncRequestPayload outbox online).toList ++ (syncRequestPayload outbox online).toList

/-- How many times a record with the given local_id is contained in the
issued request bodies, summed over all requests. -/
def uploadsOf (sent : List (List Signature)) (lid : String) : Nat :=
  (sent.map (fun body => (body.filter (fun s => s.local_id = lid)).length)).sum

/-- A concrete signature record used to evaluate the model. -/
def demoSig : Signature :=
  { local_id := "local_1"
    name := "n"
    role := "r"
    signature_base64 := "b64"
    device_id := "dev"
    device_name := "phone"
    created := "2026-01-01" }

/- ===================== Assignment duplicate check ===================== -/

/-- The assignments object received from the list endpoint, as ordered
key-value pairs: location key to assigned signature id or null. -/
abbrev Assignments := List (String × Option String)

/-- Object.values of the assignments object (line 714 of renderAssignments). -/
def objectValues (assignments : Assignments) : List (Option String) :=
  assignments.map Prod.snd

/-- assignedIds (line 714): the values with the nulls filtered out. -/
def assignedIdsOf (assignments : Assignments) : List String :=
  (objectValues assignments).filterMap id

/-- hasDuplicates (line 715): true exactly when the number of assigned ids
differs from the size of the set of distinct assigned ids. -/
def hasDuplicatesOf (assignments : Assignments) : Bool :=
  (assignedIdsOf assignments).length ≠ (assignedIdsOf assignments).dedup.length

/-- The assigned id of a location key (line 718): lookup in the assignments
object.  An absent key (undefined in the source language) and null behave
alike under the strict equality of the filter below, so both are none. -/
def lookupAssigned (assignments : Assignments) (key : String) : Option String :=
  (assignments.lookup key).getD none

/-- The duplicate flag renderAssignments computes for one location
(line 720), the duplicateCheck of the spec: there is some repeated id
overall, and the id assigned to this location occurs more than once
among the assigned ids. -/
def duplicateCheck (assignments : Assignments) (key : String) : Bool :=
  hasDuplicatesOf assignments &&
    1 < ((assignedIdsOf assignments).filter
      (fun i => lookupAssigned assignments key = some i)).length

/- ===================== Stroke smoother model ===================== -/

/-- A raw input point: canvas coordinates and a timestamp, as produced by
_clientToPoint. -/
structure RawPoint where
  x : ℝ
  y : ℝ
  t : ℝ

/-- A smoothed point of _stroke.pts: position, timestamp and blended width. -/
structure SmoothPoint where
  x : ℝ
  y : ℝ
  t : ℝ
  w : ℝ

/-- One Catmull-Rom segment rendered by _addPoint: endpoints, Bezier
control points and the stroke width used for it. -/
structure RenderedSeg where
  p1x : ℝ
  p1y : ℝ
  p2x : ℝ
  p2y : ℝ
  cp1x : ℝ
  cp1y : ℝ
  cp2x : ℝ
  cp2y : ℝ
  w : ℝ

/-- State of an active stroke: _stroke.raw, _stroke.pts, _stroke.lastT,
_stroke.lastW, the accepted point log this.points, and the rendered
segments so far. -/
structure CaptureState where
  raw : RawPoint
  pts : List SmoothPoint
  lastT : ℝ
  lastW : ℝ
  points : List (ℝ × ℝ)
  segs : List RenderedSeg

/-- _strokeStart (lines 232-253): reset the stroke state, seed _stroke.pts
with four copies of the first point at the initial width 2.8, log the
point, draw the tap dot. -/
noncomputable def strokeStart (p : RawPoint) : CaptureState :=
  let sp : SmoothPoint := ⟨p.x, p.y, p.t, 2.8⟩
  { raw := p
    pts := [sp, sp, sp, sp]
    lastT := p.t
    lastW := 2.8
    points := [(p.x, p.y)]
    segs := [] }

/-- The clamped time delta of _addPoint (line 311): at least 8 ms. -/
noncomputable def addPointDt (st : CaptureState) (p : RawPoint) : ℝ :=
  max 8 (p.t - st.lastT)

/-- The local velocity v of _addPoint (line 313): distance to the
preceding smoothed point lp over the clamped time delta, in px/ms. -/
noncomputable def addPointV (st : CaptureState) (p : RawPoint) (lp : SmoothPoint) : ℝ :=
  Real.sqrt ((p.x - lp.x) ^ 2 + (p.y - lp.y) ^ 2) / addPointDt st p

/-- The velocity factor vf of _addPoint (line 321): the power curve of the
normalized velocity, clamped to at most 1 by the outer min. -/
noncomputable def addPointVf (st : CaptureState) (p : RawPoint) (lp : SmoothPoint) : ℝ :=
  min 1 ((addPointV st p lp * 6.0 / 5.0) ^ (0.8 : ℝ))

/-- The raw velocity-mapped width wRaw of _addPoint (line 322):
maxW - vf * (maxW - minW) with maxW = 5.0 and minW = 1.2. -/
noncomputable def addPointWRaw (st : CaptureState) (p : RawPoint) (lp : SmoothPoint) : ℝ :=
  5.0 - addPointVf st p lp * (5.0 - 1.2)

/-- The blended width w of _addPoint (line 325): lastW * 0.65 + wRaw * 0.35. -/
noncomputable def addPointW (st : CaptureState) (p : RawPoint) (lp : SmoothPoint) : ℝ :=
  st.lastW * 0.65 + addPointWRaw st p lp * 0.35

/-- The Catmull-Rom segment _addPoint renders once four points are
buffered (lines 345-387): the newest four points of the buffer give the
segment from q1 to q2, with the velocity-adaptive tension denominator and
the averaged endpoint width; none when fewer than four points exist. -/
noncomputable def renderSegment (pts2 : List SmoothPoint) (v : ℝ) : Option RenderedSeg :=
  match pts2.reverse with
  | q3 :: q2 :: q1 :: q0 :: _ =>
    let denom := 12 + min 20 (v * 60)
    some
      { p1x := q1.x, p1y := q1.y, p2x := q2.x, p2y := q2.y
        cp1x := q1.x + (q2.x - q0.x) / denom
        cp1y := q1.y + (q2.y - q0.y) / denom
        cp2x := q2.x - (q3.x - q1.x) / denom
        cp2y := q2.y - (q3.y - q1.y) / denom
        w := (q1.w + q2.w) / 2 }
  | _ => none

/-- _addPoint (lines 309-388): look up the preceding smoothed point (none
models the failing lookup on an empty buffer), compute the blended width
from the clamped velocity curve, apply the light position smoothing, push
the point, and once four points are buffered render the latest
Catmull-Rom segment. -/
noncomputable def addPoint (st : CaptureState) (p : RawPoint) : Option CaptureState :=
  match st.pts.getLast? with
  | none => none
  | some lp =>
    let w := addPointW st p lp
    let pt : SmoothPoint := ⟨lp.x * 0.25 + p.x * 0.75, lp.y * 0.25 + p.y * 0.75, p.t, w⟩
    let pts2 := st.pts ++ [pt]
    if pts2.length < 4 then
      some { st with pts := pts2, lastT := p.t, lastW := w }
    else
      match renderSegment pts2 (addPointV st p lp) with
      | some seg =>
        some { st with pts := pts2, lastT := p.t, lastW := w, segs := st.segs ++ [seg] }
      | none => none

/-- Distance between the last raw point and the new event point
(lines 259-261). -/
noncomputable def rawDist (a p : RawPoint) : ℝ :=
  Real.sqrt ((p.x - a.x) ^ 2 + (p.y - a.y) ^ 2)

/-- The curvature hint of _strokeMove (lines 272-285): when the log of
accepted points holds at least three entries, take the direction from the
second-to-last to the last accepted point and the direction from the last
accepted point to the event point; if both are longer than 0.001, the
angle between them in degrees raises the boost to 1.35 beyond 35 degrees
and to 1.65 beyond 70 degrees; in every other case the boost is 1.0. -/
noncomputable def turnBoostOf (points : List (ℝ × ℝ)) (p : RawPoint) : ℝ :=
  if points.length < 3 then 1.0 else
  match points.reverse with
  | lp :: lpp :: _ =>
    let v1x := lp.1 - lpp.1
    let v1y := lp.2 - lpp.2
    let v2x := p.x - lp.1
    let v2y := p.y - lp.2
    let d1 := Real.sqrt (v1x ^ 2 + v1y ^ 2)
    let d2 := Real.sqrt (v2x ^ 2 + v2y ^ 2)
    if 0.001 < d1 ∧ 0.001 < d2 then
      let c := (v1x * v2x + v1y * v2y) / (d1 * d2)
      let angle := Real.arccos (max (-1) (min 1 c)) * (180 / Real.pi)
      let tb1 := if 35 < angle then 1.35 else 1.0
      if 70 < angle then 1.65 else tb1
    else 1.0
  | _ => 1.0

/-- The resampling loop of _strokeMove (lines 268-304) for an accepted
move: speed over the clamped elapsed time, step size shrinking with speed
and turn boost but bounded between 0.08 and 0.40, and n = max(1,
ceil(dist/step)) sub-points interpolated linearly in position and time
between the previous raw point a and the event point p. -/
noncomputable def resampleSubPoints (a p : RawPoint) (tb : ℝ) : List RawPoint :=
  let dx := p.x - a.x
  let dy := p.y - a.y
  let dist := Real.sqrt (dx ^ 2 + dy ^ 2)
  let dt := max 1 (p.t - a.t)
  let speed := dist / dt
  let step := max 0.08 ((0.40 - min 0.30 (speed * 0.50)) / tb)
  let n := max 1 ⌈dist / step⌉₊
  (List.range n).map (fun i =>
    let t := ((i + 1 : ℕ) : ℝ) / (n : ℝ)
    ⟨a.x + dx * t, a.y + dy * t, a.t + (p.t - a.t) * t⟩)

/-- The sub-points one _strokeMove call feeds to _addPoint: none when the
move is discarded as micro jitter (line 264), otherwise the resampled
interpolation between _stroke.raw and the event point. -/
noncomputable def strokeMoveSubPoints (st : CaptureState) (p : RawPoint) : List RawPoint :=
  if rawDist st.raw p < 0.35 then []
  else resampleSubPoints st.raw p (turnBoostOf st.points p)

/-- One iteration of the _strokeMove loop body (lines 297-304): feed the
sub-point to _addPoint, then log its coordinates in this.points. -/
noncomputable def feedSub (ost : Option CaptureState) (q : RawPoint) : Option CaptureState :=
  ost.bind fun st =>
    (addPoint st q).map fun st2 => { st2 with points := st2.points ++ [(q.x, q.y)] }

/-- _strokeMove (lines 255-307): discard micro jitter, otherwise feed every
resampled sub-point through _addPoint and finally replace _stroke.raw with
the event point. -/
noncomputable def strokeMove (st : CaptureState) (p : RawPoint) : Option CaptureState :=
  if rawDist st.raw p < 0.35 then some st
  else
    ((strokeMoveSubPoints st p).foldl feedSub (some st)).map
      fun st1 => { st1 with raw := p }

/-- A whole stroke: _strokeStart on the first point followed by _strokeMove
on each subsequent event point. -/
noncomputable def processStroke (p0 : RawPoint) (moves : List RawPoint) : Option CaptureState :=
  moves.foldl (fun ost p => ost.bind fun st => strokeMove st p) (some (strokeStart p0))

/-- Every width held or rendered by the smoother state lies within the
configured bounds minW = 1.2 and maxW = 5.0: the per-point blended widths,
the running lastW, and the width of every rendered segment. -/
def WidthsOK (st : CaptureState) : Prop :=
  (∀ q ∈ st.pts, 1.2 ≤ q.w ∧ q.w ≤ 5) ∧
  (1.2 ≤ st.lastW ∧ st.lastW ≤ 5) ∧
  (∀ s ∈ st.segs, 1.2 ≤ s.w ∧ s.w ≤ 5)

/-- Invariant carried along a stroke: the seeded point buffer never drops
below four entries, and every width is within bounds. -/
def StrokeInv (st : CaptureState) : Prop :=
  4 ≤ st.pts.length ∧ WidthsOK st

/- ===================== Theorems: outbox and sync ===================== -/

/-- Claim C1: saveSignature persists every newly created Signature to the
durable LocalOutbox before any upload is attempted (when online, the
outbox handed to uploadSignature already holds the record), the record is
removed only after a response with the explicit success status, and on
every other path (offline save, failed upload, thrown fetch or json
error) the record remains in the outbox. -/
theorem saveSignature_persists_until_confirmed
    (outbox : List Signature)
    (name role base64 deviceId deviceName created : String)
    (pointsLen nowMs : Nat) (online : Bool) (resp : Option UploadResponse)
    (hname : name ≠ "") (hpts : 10 ≤ pointsLen) :
    ((saveSignature outbox name role base64 deviceId deviceName created
        pointsLen nowMs online resp).1
      = if online
        then (uploadSignature
            (saveToLocalStorage outbox
              (mkSignatureData name role base64 deviceId deviceName created nowMs))
            (mkSignatureData name role base64 deviceId deviceName created nowMs) resp).1
        else saveToLocalStorage outbox
            (mkSignatureData name role base64 deviceId deviceName created nowMs))
    ∧ (online = true → respIsSuccess resp = true →
        (saveSignature outbox name role base64 deviceId deviceName created
            pointsLen nowMs online resp).1
          = removeFromLocalStorage
              (saveToLocalStorage outbox
                (mkSignatureData name role base64 deviceId deviceName created nowMs))
              (mkSignatureData name role base64 deviceId deviceName created nowMs).local_id)
    ∧ (online = false ∨ respIsSuccess resp = false →
        mkSignatureData name role base64 deviceId deviceName created nowMs
          ∈ (saveSignature outbox name role base64 deviceId deviceName created
              pointsLen nowMs online resp).1) := by
  have hp : ¬ pointsLen < 10 := by omega
  cases online with
  | false =>
    refine ⟨?_, ?_, ?_⟩
    · simp [saveSignature, hname, hp]
    · intro h; cases h
    · intro _
      simp [saveSignature, hname, hp, saveToLocalStorage]
  | true =>
    cases resp with
    | none =>
      refine ⟨?_, ?_, ?_⟩
      · simp [saveSignature, hname, hp, uploadSignature]
      · intro _ h; cases h
      · intro _
        simp [saveSignature, hname, hp, uploadSignature, saveToLocalStorage]
    | some r =>
      by_cases hs : r.status = "success"
      · refine ⟨?_, ?_, ?_⟩
        · simp [saveSignature, hname, hp, uploadSignature, hs]
        · intro _ _
          simp [saveSignature, hname, hp, uploadSignature, hs]
        · intro h
          rcases h with h | h
          · cases h
          · exfalso
            simp [respIsSuccess, hs] at h
      · refine ⟨?_, ?_, ?_⟩
        · simp [saveSignature, hname, hp, uploadSignature, hs]
        · intro _ h
          exfalso
          simp [respIsSuccess, hs] at h
        · intro _
          simp [saveSignature, hname, hp, uploadSignature, hs, saveToLocalStorage]

/-- Witness for claim C1: a concrete offline save leaves the new record in
the outbox. -/
theorem saveSignature_persists_until_confirmed_witness :
    mkSignatureData "n" "r" "b" "d" "p" "c" 0
      ∈ (saveSignature [] "n" "r" "b" "d" "p" "c" 10 0 false none).1 :=
  (saveSignature_persists_until_confirmed [] "n" "r" "b" "d" "p" "c" 10 0 false none
    (by decide) (by decide)).2.2 (Or.inl rfl)

/-- Claim C2: for a non-empty outbox, when the bulk endpoint answers with
body status success, syncSignatures clears the whole outbox and reports
the count of synced ids; on any other status, or a thrown fetch or json
error, the outbox is left completely intact. -/
theorem syncSignatures_all_or_nothing
    (outbox : List Signature) (r : SyncResponse) (h : outbox ≠ []) :
    (r.status = "success" →
      syncSignatures outbox true (some r) = ⟨[], .syncedOk r.synced.length, true⟩)
    ∧ (r.status ≠ "success" →
      syncSignatures outbox true (some r) = ⟨outbox, .syncFailedMsg r.message, true⟩)
    ∧ syncSignatures outbox true none = ⟨outbox, .syncFailedError, true⟩ := by
  have hl : ¬ outbox.length = 0 := by
    simpa using h
  refine ⟨?_, ?_, ?_⟩
  · intro hs
    simp [syncSignatures, hl, hs]
  · intro hs
    simp [syncSignatures, hl, hs]
  · simp [syncSignatures, hl]

/-- Witness for claim C2: a one-entry outbox plus a success response with
one synced id clears the outbox and reports count one. -/
theorem syncSignatures_all_or_nothing_witness :
    syncSignatures [demoSig] true (some ⟨"success", ["1"], ""⟩)
      = ⟨[], .syncedOk 1, true⟩ :=
  (syncSignatures_all_or_nothing [demoSig] ⟨"success", ["1"], ""⟩ (by simp)).1 rfl

/-- Claim C3: uploadSignature removes the posted signature from the outbox
exactly when the response body carries the explicit success status; on a
thrown error or any other status it returns false and the outbox is
unmodified; and after enqueueing a signature, a successful upload leaves
listPending without its local_id. -/
theorem uploadSignature_removes_iff_success
    (outbox : List Signature) (s : Signature) (resp : Option UploadResponse) :
    ((uploadSignature outbox s resp).1
      = if respIsSuccess resp then removeFromLocalStorage outbox s.local_id else outbox)
    ∧ ((uploadSignature outbox s resp).2 = respIsSuccess resp)
    ∧ (respIsSuccess resp = false → (uploadSignature outbox s resp).1 = outbox)
    ∧ (respIsSuccess resp = true →
      ∀ q ∈ loadLocalSignatures
          (uploadSignature (saveToLocalStorage outbox s) s resp).1,
        q.local_id ≠ s.local_id) := by
  cases resp with
  | none =>
    refine ⟨by simp [uploadSignature, respIsSuccess], by simp [uploadSignature, respIsSuccess],
      fun _ => by simp [uploadSignature], fun h => by simp [respIsSuccess] at h⟩
  | some r =>
    by_cases hs : r.status = "success"
    · refine ⟨by simp [uploadSignature, respIsSuccess, hs],
        by simp [uploadSignature, respIsSuccess, hs], ?_, ?_⟩
      · intro hfail
        exfalso
        simp [respIsSuccess, hs] at hfail
      · intro _ q hq
        simp only [uploadSignature, hs, if_pos, loadLocalSignatures,
          removeFromLocalStorage, List.mem_filter] at hq
        simpa using hq.2
    · refine ⟨by simp [uploadSignature, respIsSuccess, hs],
        by simp [uploadSignature, respIsSuccess, hs],
        fun _ => by simp [uploadSignature, hs], ?_⟩
      intro hsucc
      exfalso
      simp [respIsSuccess, hs] at hsucc

/-- Witness for claim C3: a failed upload leaves a one-entry outbox as it
was. -/
theorem uploadSignature_removes_iff_success_witness :
    (uploadSignature [demoSig] demoSig (some ⟨"fail", none⟩)).1 = [demoSig] :=
  (uploadSignature_removes_iff_success [demoSig] demoSig (some ⟨"fail", none⟩)).2.2.1
    (by decide)

/-- Claim C9: syncSignatures issues no network request when its
preconditions fail: an empty outbox reports nothing to sync, and a
non-empty outbox while offline reports that it cannot sync offline; in
both cases the outbox is returned unchanged. -/
theorem syncSignatures_preconditions
    (outbox : List Signature) (online : Bool) (resp rsp2 : Option SyncResponse) :
    syncSignatures [] online resp = ⟨[], .nothingToSync, false⟩
    ∧ (outbox ≠ [] →
      syncSignatures outbox false rsp2 = ⟨outbox, .cannotSyncOffline, false⟩) := by
  refine ⟨by simp [syncSignatures], ?_⟩
  intro h
  have hl : ¬ outbox.length = 0 := by simpa using h
  simp [syncSignatures, hl]

/-- Witness for claim C9: a non-empty outbox while offline. -/
theorem syncSignatures_preconditions_witness :
    syncSignatures [demoSig] false none = ⟨[demoSig], .cannotSyncOffline, false⟩ :=
  (syncSignatures_preconditions [demoSig] false none none).2 (by simp)

/-- Claim C4, of which the code falls short: syncSignatures keeps no
in-flight guard (its guard checks consult only the stored outbox and the
connectivity flag), so two invocations that both start before either
response arrives, such as the automatic handleOnline trigger and a press
of the sync button, which invoke the very same syncSignatures operation,
each issue a bulk request containing the same outbox entry: demoSig is
uploaded twice.  The last conjunct ties the payload model to the embedded
syncSignatures: a request is issued exactly when the payload is some. -/
theorem syncSignatures_duplicate_upload_without_guard :
    twoConcurrentSyncStarts [demoSig] true = [[demoSig], [demoSig]]
    ∧ uploadsOf (twoConcurrentSyncStarts [demoSig] true) demoSig.local_id = 2
    ∧ ∀ (outbox : List Signature) (online : Bool) (resp : Option SyncResponse),
        (syncSignatures outbox online resp).requested
          = (syncRequestPayload outbox online).isSome := by
  refine ⟨by simp [twoConcurrentSyncStarts, syncRequestPayload, demoSig],
    by simp [twoConcurrentSyncStarts, syncRequestPayload, uploadsOf, demoSig], ?_⟩
  intro outbox online resp
  by_cases hl : outbox.length = 0
  · simp [syncSignatures, syncRequestPayload, hl]
  · cases online with
    | false => simp [syncSignatures, syncRequestPayload, hl]
    | true =>
      cases resp with
      | none => simp [syncSignatures, syncRequestPayload, hl]
      | some r =>
        by_cases hs : r.status = "success" <;>
          simp [syncSignatures, syncRequestPayload, hl, hs]

/- ===================== Theorems: local id uniqueness ===================== -/

theorem digitChar_inj_of_lt {a b : Nat} (ha : a < 10) (hb : b < 10)
    (h : Nat.digitChar a = Nat.digitChar b) : a = b := by
  interval_cases a <;> interval_cases b <;> revert h <;> decide

theorem map_digitChar_inj : ∀ (l1 l2 : List Nat),
    (∀ a ∈ l1, a < 10) → (∀ a ∈ l2, a < 10) →
    l1.map Nat.digitChar = l2.map Nat.digitChar → l1 = l2 := by
  intro l1
  induction l1 with
  | nil =>
    intro l2 _ _ h
    cases l2 with
    | nil => rfl
    | cons b t => simp at h
  | cons a t1 ih =>
    intro l2 h1 h2 h
    cases l2 with
    | nil => simp at h
    | cons b t2 =>
      simp only [List.map_cons, List.cons.injEq] at h
      have hab : a = b :=
        digitChar_inj_of_lt (h1 a (by simp)) (h2 b (by simp)) h.1
      have ht : t1 = t2 :=
        ih t2 (fun x hx => h1 x (by simp [hx])) (fun x hx => h2 x (by simp [hx])) h.2
      rw [hab, ht]

theorem asString_inj {l1 l2 : List Char} (h : l1.asString = l2.asString) : l1 = l2 :=
  congrArg String.data h

theorem string_append_left_cancel {a x y : String} (h : a ++ x = a ++ y) : x = y := by
  cases a with
  | mk ad =>
    cases x with
    | mk xd =>
      cases y with
      | mk yd =>
        have hdata : ad ++ xd = ad ++ yd := congrArg String.data h
        exact congrArg String.mk (List.append_cancel_left hdata)

theorem natToDecimalString_ne_zero_str {n : Nat} (hn : n ≠ 0) :
    natToDecimalString n ≠ "0" := by
  intro h
  rw [natToDecimalString, if_neg hn] at h
  have hd : (Nat.digits 10 n).reverse.map Nat.digitChar = ['0'] := by
    have := congrArg String.data h
    simpa [List.asString] using this
  have hlen : (Nat.digits 10 n).length = 1 := by
    have := congrArg List.length hd
    simpa using this
  obtain ⟨d, hds⟩ := List.length_eq_one.mp hlen
  have hch : Nat.digitChar d = '0' := by
    rw [hds] at hd
    simpa using hd
  have hd10 : d < 10 :=
    Nat.digits_lt_base (by norm_num) (show d ∈ Nat.digits 10 n by rw [hds]; simp)
  have hd0 : d = 0 := digitChar_inj_of_lt hd10 (by norm_num) (by simpa using hch)
  have h0 := Nat.ofDigits_digits 10 n
  rw [hds, hd0] at h0
  exact hn (by simpa [Nat.ofDigits] using h0.symm)

theorem natToDecimalString_inj {m n : Nat}
    (h : natToDecimalString m = natToDecimalString n) : m = n := by
  by_cases hm : m = 0 <;> by_cases hn : n = 0
  · rw [hm, hn]
  · exfalso
    rw [hm] at h
    exact natToDecimalString_ne_zero_str hn
      (by rw [← h]; rw [natToDecimalString, if_pos rfl])
  · exfalso
    rw [hn] at h
    exact natToDecimalString_ne_zero_str hm
      (by rw [h]; rw [natToDecimalString, if_pos rfl])
  · rw [natToDecimalString, if_neg hm, natToDecimalString, if_neg hn] at h
    have hmap := asString_inj h
    have hrev := map_digitChar_inj _ _
      (fun a ha => Nat.digits_lt_base (by norm_num) (List.mem_reverse.mp ha))
      (fun a ha => Nat.digits_lt_base (by norm_num) (List.mem_reverse.mp ha)) hmap
    have hdig : Nat.digits 10 m = Nat.digits 10 n :=
      List.reverse_injective hrev
    exact Nat.digits.injective 10 hdig

/-- Counterexample to claim C5 as stated: two distinct Signatures created
by saveSignature within the same millisecond (Date.now = 5 for both)
receive the same local_id, because the id is derived from the timestamp
alone. -/
theorem saveSignature_localId_collision :
    mkSignatureData "a" "r" "b" "d" "p" "c" 5 ≠ mkSignatureData "b" "r" "b" "d" "p" "c" 5
    ∧ (mkSignatureData "a" "r" "b" "d" "p" "c" 5).local_id
      = (mkSignatureData "b" "r" "b" "d" "p" "c" 5).local_id :=
  ⟨fun h => absurd (congrArg Signature.name h) (by decide), rfl⟩

/-- Claim C5 as amended: two Signatures created by saveSignature at
distinct Date.now millisecond values receive distinct local_id values, so
among saves at distinct milliseconds a local_id identifies at most one
outbox entry; and removal by local_id keeps exactly the entries whose
local_id differs. -/
theorem mkSignatureData_localId_inj
    (n1 r1 b1 d1 dn1 c1 n2 r2 b2 d2 dn2 c2 : String) (t1 t2 : Nat)
    (h : t1 ≠ t2) :
    ((mkSignatureData n1 r1 b1 d1 dn1 c1 t1).local_id
      ≠ (mkSignatureData n2 r2 b2 d2 dn2 c2 t2).local_id)
    ∧ ∀ (outbox : List Signature) (lid : String) (q : Signature),
        q ∈ removeFromLocalStorage outbox lid ↔ (q ∈ outbox ∧ q.local_id ≠ lid) := by
  constructor
  · intro heq
    exact h (natToDecimalString_inj (string_append_left_cancel heq))
  · intro outbox lid q
    simp [removeFromLocalStorage, List.mem_filter]

/-- Witness for the amended claim C5 at the concrete timestamps 1 and 2. -/
theorem mkSignatureData_localId_inj_witness :
    (mkSignatureData "n" "r" "b" "d" "p" "c" 1).local_id
      ≠ (mkSignatureData "n" "r" "b" "d" "p" "c" 2).local_id :=
  (mkSignatureData_localId_inj "n" "r" "b" "d" "p" "c" "n" "r" "b" "d" "p" "c" 1 2
    (by decide)).1

/- ===================== Theorems: duplicate flag ===================== -/

theorem filter_eq_some_length (l : List (Option String)) (x : String) :
    ((l.filterMap id).filter (fun i => x = i)).length
      = (l.filter (fun v => v = some x)).length := by
  induction l with
  | nil => rfl
  | cons a l ih =>
    cases a with
    | none => simpa using ih
    | some b =>
      by_cases hb : x = b
      · subst hb
        simpa using ih
      · have hb2 : ¬ ((some b : Option String) = some x) := by
          simp [eq_comm, hb]
        simp [List.filterMap_cons, List.filter_cons, hb, hb2, ih]

theorem hasDuplicatesOf_iff (A : Assignments) :
    hasDuplicatesOf A = true ↔ ¬ (assignedIdsOf A).Nodup := by
  unfold hasDuplicatesOf
  rw [decide_eq_true_iff]
  constructor
  · intro hne hdup
    exact hne (by rw [List.dedup_eq_self.mpr hdup])
  · intro hdup hlen
    exact hdup (List.dedup_eq_self.mp
      ((List.dedup_sublist _).eq_of_length hlen.symm))

theorem count_gt_one_not_nodup {l : List String} {x : String}
    (h : 1 < (l.filter (fun i => x = i)).length) : ¬ l.Nodup := by
  intro hnodup
  have hc := List.nodup_iff_count_le_one.mp hnodup x
  rw [List.count, List.countP_eq_length_filter] at hc
  have heq : (l.filter (fun i => x = i)) = (l.filter (fun i => i == x)) := by
    apply List.filter_congr
    intro a _
    by_cases hax : x = a
    · subst hax
      simp
    · have hfa : (a == x) = false := by
        simpa using fun h2 : a = x => hax h2.symm
      simp [hax, hfa]
  rw [heq] at h
  omega

theorem duplicateCheck_iff_aux (A : Assignments) (k : String) :
    duplicateCheck A k = true ↔
      ∃ x, lookupAssigned A k = some x
        ∧ 1 < ((objectValues A).filter (fun v => v = some x)).length := by
  have hfm : assignedIdsOf A = (objectValues A).filterMap id := rfl
  unfold duplicateCheck
  rw [Bool.and_eq_true, decide_eq_true_iff]
  constructor
  · rintro ⟨hdup, hcount⟩
    cases hl : lookupAssigned A k with
    | none =>
      rw [hl] at hcount
      simp at hcount
    | some x =>
      refine ⟨x, rfl, ?_⟩
      rw [hl] at hcount
      have heq : ((assignedIdsOf A).filter (fun i => some x = some i)).length
          = ((assignedIdsOf A).filter (fun i => x = i)).length :=
        congrArg List.length (List.filter_congr (fun a _ => by simp))
      rw [heq, hfm, filter_eq_some_length] at hcount
      exact hcount
  · rintro ⟨x, hl, hslots⟩
    have hcnt : 1 < ((assignedIdsOf A).filter (fun i => x = i)).length := by
      rw [hfm, filter_eq_some_length]
      exact hslots
    refine ⟨?_, ?_⟩
    · rw [hasDuplicatesOf_iff]
      exact count_gt_one_not_nodup hcnt
    · rw [hl]
      have heq : ((assignedIdsOf A).filter (fun i => some x = some i)).length
          = ((assignedIdsOf A).filter (fun i => x = i)).length :=
        congrArg List.length (List.filter_congr (fun a _ => by simp))
      rw [heq]
      exact hcnt

/-- Claim C8: the duplicate flag renderAssignments computes for a slot is
raised exactly when the id assigned to that slot is non-null and occurs
in more than one slot of the assignments table; and when no id occupies
two slots, no slot is flagged. -/
theorem renderAssignments_duplicate_flag (A : Assignments) (key : String) :
    (duplicateCheck A key = true ↔
      ∃ x, lookupAssigned A key = some x
        ∧ 1 < ((objectValues A).filter (fun v => v = some x)).length)
    ∧ ((∀ x : String, ((objectValues A).filter (fun v => v = some x)).length ≤ 1)
        → ∀ k : String, duplicateCheck A k = false) := by
  refine ⟨duplicateCheck_iff_aux A key, ?_⟩
  intro hall k
  cases hdc : duplicateCheck A k with
  | false => rfl
  | true =>
    obtain ⟨x, _, hx⟩ := (duplicateCheck_iff_aux A k).mp hdc
    have := hall x
    omega

/- ===================== Theorems: stroke smoother ===================== -/

theorem exists_four_cons {α : Type} {l : List α} (h : 4 ≤ l.length) :
    ∃ a b c d t, l = a :: b :: c :: d :: t := by
  rcases l with _ | ⟨a, l⟩
  · simp at h
  rcases l with _ | ⟨b, l⟩
  · simp at h
  rcases l with _ | ⟨c, l⟩
  · simp at h
  rcases l with _ | ⟨d, l⟩
  · simp at h
  exact ⟨a, b, c, d, l, rfl⟩

theorem addPointVf_bounds (st : CaptureState) (p : RawPoint) (lp : SmoothPoint) :
    0 ≤ addPointVf st p lp ∧ addPointVf st p lp ≤ 1 := by
  have hdt : (0 : ℝ) < addPointDt st p := by
    have : (8 : ℝ) ≤ addPointDt st p := le_max_left _ _
    linarith
  have hv : 0 ≤ addPointV st p lp :=
    div_nonneg (Real.sqrt_nonneg _) (le_of_lt hdt)
  have hbase : (0 : ℝ) ≤ addPointV st p lp * 6.0 / 5.0 := by positivity
  constructor
  · exact le_min zero_le_one (Real.rpow_nonneg hbase _)
  · exact min_le_left _ _

theorem addPointWRaw_bounds (st : CaptureState) (p : RawPoint) (lp : SmoothPoint) :
    1.2 ≤ addPointWRaw st p lp ∧ addPointWRaw st p lp ≤ 5 := by
  obtain ⟨h0, h1⟩ := addPointVf_bounds st p lp
  unfold addPointWRaw
  constructor <;> nlinarith

theorem addPointW_bounds (st : CaptureState) (p : RawPoint) (lp : SmoothPoint)
    (hlw : 1.2 ≤ st.lastW ∧ st.lastW ≤ 5) :
    1.2 ≤ addPointW st p lp ∧ addPointW st p lp ≤ 5 := by
  obtain ⟨h0, h1⟩ := addPointWRaw_bounds st p lp
  unfold addPointW
  constructor <;> nlinarith [hlw.1, hlw.2]

theorem renderSegment_spec (pts2 : List SmoothPoint) (v : ℝ) (h4 : 4 ≤ pts2.length) :
    ∃ seg q1 q2, renderSegment pts2 v = some seg
      ∧ q1 ∈ pts2 ∧ q2 ∈ pts2 ∧ seg.w = (q1.w + q2.w) / 2 := by
  obtain ⟨a, b, c, d, t, hrev⟩ := exists_four_cons
    (show 4 ≤ pts2.reverse.length by simpa using h4)
  have hc : c ∈ pts2 := by
    rw [← List.mem_reverse, hrev]
    simp
  have hb : b ∈ pts2 := by
    rw [← List.mem_reverse, hrev]
    simp
  refine ⟨{ p1x := c.x, p1y := c.y, p2x := b.x, p2y := b.y,
            cp1x := c.x + (b.x - d.x) / (12 + min 20 (v * 60)),
            cp1y := c.y + (b.y - d.y) / (12 + min 20 (v * 60)),
            cp2x := b.x - (a.x - c.x) / (12 + min 20 (v * 60)),
            cp2y := b.y - (a.y - c.y) / (12 + min 20 (v * 60)),
            w := (c.w + b.w) / 2 }, c, b, ?_, hc, hb, rfl⟩
  unfold renderSegment
  rw [hrev]

theorem addPoint_preserves (st : CaptureState) (p : RawPoint) (hinv : StrokeInv st) :
    ∃ st2, addPoint st p = some st2
      ∧ st2.pts.length = st.pts.length + 1 ∧ StrokeInv st2 := by
  obtain ⟨h4, hW⟩ := hinv
  obtain ⟨hpts, hlastW, hsegs⟩ := hW
  have hne : st.pts ≠ [] := by
    intro h0
    rw [h0] at h4
    simp at h4
  obtain ⟨lp, hlast⟩ : ∃ lp, st.pts.getLast? = some lp := by
    cases hl : st.pts.getLast? with
    | none => exact absurd (List.getLast?_eq_none_iff.mp hl) hne
    | some lp => exact ⟨lp, rfl⟩
  have hw := addPointW_bounds st p lp hlastW
  set pt : SmoothPoint :=
    ⟨lp.x * 0.25 + p.x * 0.75, lp.y * 0.25 + p.y * 0.75, p.t, addPointW st p lp⟩ with hptdef
  have hlen2 : (st.pts ++ [pt]).length = st.pts.length + 1 := by simp
  obtain ⟨seg, q1, q2, hrs, hq1, hq2, hsw⟩ :=
    renderSegment_spec (st.pts ++ [pt]) (addPointV st p lp) (by omega)
  have hptw : 1.2 ≤ pt.w ∧ pt.w ≤ 5 := hw
  have hptsall : ∀ q ∈ st.pts ++ [pt], 1.2 ≤ q.w ∧ q.w ≤ 5 := by
    intro q hq
    rcases List.mem_append.mp hq with hq | hq
    · exact hpts q hq
    · rw [List.mem_singleton.mp hq]
      exact hptw
  refine ⟨{ st with
      pts := st.pts ++ [pt],
      lastT := p.t,
      lastW := addPointW st p lp,
      segs := st.segs ++ [seg] }, ?_, ?_, ?_, ?_, ?_, ?_⟩
  · simp only [addPoint, hlast]
    rw [← hptdef]
    rw [if_neg (show ¬ (st.pts ++ [pt]).length < 4 by omega)]
    rw [hrs]
  · exact hlen2
  · show 4 ≤ (st.pts ++ [pt]).length
    omega
  · exact hptsall
  · exact hw
  · intro s hs
    rcases List.mem_append.mp hs with hs | hs
    · exact hsegs s hs
    · rw [List.mem_singleton.mp hs, hsw]
      have h1 := hptsall q1 hq1
      have h2 := hptsall q2 hq2
      constructor
      · linarith [h1.1, h2.1]
      · linarith [h1.2, h2.2]

theorem foldl_feedSub_preserves (subs : List RawPoint) :
    ∀ st : CaptureState, StrokeInv st →
      ∃ st2, subs.foldl feedSub (some st) = some st2 ∧ StrokeInv st2 := by
  induction subs with
  | nil => exact fun st h => ⟨st, rfl, h⟩
  | cons q subs ih =>
    intro st h
    obtain ⟨st1, hadd, _, hinv⟩ := addPoint_preserves st q h
    have hstep : feedSub (some st) q
        = some { st1 with points := st1.points ++ [(q.x, q.y)] } := by
      simp [feedSub, hadd]
    rw [List.foldl_cons, hstep]
    exact ih _ hinv

theorem strokeMove_preserves (st : CaptureState) (p : RawPoint) (h : StrokeInv st) :
    ∃ st2, strokeMove st p = some st2 ∧ StrokeInv st2 := by
  unfold strokeMove
  by_cases hj : rawDist st.raw p < 0.35
  · rw [if_pos hj]
    exact ⟨st, rfl, h⟩
  · rw [if_neg hj]
    obtain ⟨st1, hfold, hinv⟩ := foldl_feedSub_preserves (strokeMoveSubPoints st p) st h
    rw [hfold]
    exact ⟨{ st1 with raw := p }, rfl, hinv⟩

theorem strokeStart_inv (p0 : RawPoint) : StrokeInv (strokeStart p0) := by
  refine ⟨by simp [strokeStart], ?_, ?_, ?_⟩
  · intro q hq
    simp only [strokeStart, List.mem_cons, List.not_mem_nil, or_false] at hq
    rcases hq with h | h | h | h <;> rw [h] <;> constructor <;> norm_num
  · constructor <;> norm_num [strokeStart]
  · intro s hs
    simp [strokeStart] at hs

theorem processStroke_inv (p0 : RawPoint) (moves : List RawPoint) :
    ∃ st, processStroke p0 moves = some st ∧ StrokeInv st := by
  unfold processStroke
  have hgen : ∀ (ms : List RawPoint) (st : CaptureState), StrokeInv st →
      ∃ st2, ms.foldl (fun ost p => ost.bind fun s => strokeMove s p) (some st) = some st2
        ∧ StrokeInv st2 := by
    intro ms
    induction ms with
    | nil => exact fun st h => ⟨st, rfl, h⟩
    | cons p ms ih =>
      intro st h
      obtain ⟨st1, hm, h1⟩ := strokeMove_preserves st p h
      rw [List.foldl_cons, show (some st).bind (fun s => strokeMove s p) = strokeMove st p
        from rfl, hm]
      exact ih st1 h1
  exact hgen moves (strokeStart p0) (strokeStart_inv p0)

/-- Claim C6: along any stroke (a stroke start followed by any sequence of
move events, with arbitrary velocities including zero and arbitrarily
large ones), every width computed and rendered by the smoother lies
within the bounds minW = 1.2 and maxW = 5.0: the raw velocity-mapped
width is in bounds because the velocity factor is clamped to the unit
interval, the blend lastW * 0.65 + wRaw * 0.35 stays in bounds by
induction from the initial width 2.8, and each rendered segment width is
the average of two in-bound endpoint widths. -/
theorem smoother_width_bounds (p0 : RawPoint) (moves : List RawPoint) (st : CaptureState)
    (h : processStroke p0 moves = some st) : WidthsOK st := by
  obtain ⟨st2, h2, hinv⟩ := processStroke_inv p0 moves
  rw [h] at h2
  have hst : st = st2 := by
    injection h2
  subst hst
  exact hinv.2

/-- Witness for claim C6: the state right after a stroke start. -/
theorem smoother_width_bounds_witness : WidthsOK (strokeStart ⟨0, 0, 0⟩) :=
  smoother_width_bounds ⟨0, 0, 0⟩ [] (strokeStart ⟨0, 0, 0⟩) rfl

/-- Claim C10: the per-point computation of _addPoint is always
well-defined along a stroke: processing never hits the failing buffer
lookup because _strokeStart seeds the buffer with four copies of the
first point and the buffer only grows (so the four-point Catmull-Rom
window is available from the first accepted move onward), and the
clamped time delta is at least 8 ms, so the velocity division never
divides by zero. -/
theorem addPoint_always_welldefined (p0 : RawPoint) (moves : List RawPoint) :
    (∃ st, processStroke p0 moves = some st ∧ 4 ≤ st.pts.length)
    ∧ ∀ (st : CaptureState) (p : RawPoint), 8 ≤ addPointDt st p := by
  constructor
  · obtain ⟨st, h, hinv⟩ := processStroke_inv p0 moves
    exact ⟨st, h, hinv.1⟩
  · intro st p
    exact le_max_left _ _

/-- Claim C7: for every move event accepted during an active stroke
(distance from the last raw point at least the jitter threshold 0.35),
_strokeMove generates exactly n = max(1, ceil(dist/step)) sub-points,
where step = max(0.08, (0.40 - min(0.30, speed * 0.50)) / turnBoost)
with the speed taken over the clamped elapsed time and the turn boost of
turnBoostOf (1.35 beyond 35 degrees of turn, 1.65 beyond 70 degrees, 1.0
otherwise), and the i-th sub-point, counting from one, is the exact
linear interpolation of position and time between the two raw points:
a + (p - a) * (i / n). -/
theorem strokeMove_resampling (st : CaptureState) (p : RawPoint)
    (h : 0.35 ≤ rawDist st.raw p) :
    (strokeMoveSubPoints st p).length
      = max 1 ⌈rawDist st.raw p /
          max 0.08 ((0.40 - min 0.30 (rawDist st.raw p / max 1 (p.t - st.raw.t) * 0.50))
            / turnBoostOf st.points p)⌉₊
    ∧ ∀ (i : ℕ) (hi : i < (strokeMoveSubPoints st p).length),
        (strokeMoveSubPoints st p).get ⟨i, hi⟩
          = { x := st.raw.x + (p.x - st.raw.x)
                  * (((i : ℝ) + 1) / ((strokeMoveSubPoints st p).length : ℝ)),
              y := st.raw.y + (p.y - st.raw.y)
                  * (((i : ℝ) + 1) / ((strokeMoveSubPoints st p).length : ℝ)),
              t := st.raw.t + (p.t - st.raw.t)
                  * (((i : ℝ) + 1) / ((strokeMoveSubPoints st p).length : ℝ)) } := by
  have hnot : ¬ rawDist st.raw p < 0.35 := not_lt.mpr h
  have hexp : strokeMoveSubPoints st p
      = resampleSubPoints st.raw p (turnBoostOf st.points p) := by
    rw [strokeMoveSubPoints, if_neg hnot]
  rw [hexp]
  simp only [resampleSubPoints, rawDist]
  constructor
  · simp
  · intro i hi
    simp only [List.get_eq_getElem, List.getElem_map, List.getElem_range]
    simp only [List.length_map, List.length_range]
    refine RawPoint.mk.injEq .. ▸ ?_
    refine ⟨?_, ?_, ?_⟩ <;> push_cast <;> ring

/-- Witness for claim C7 at a concrete accepted move of distance one. -/
theorem strokeMove_resampling_witness :
    (strokeMoveSubPoints (strokeStart ⟨0, 0, 0⟩) ⟨1, 0, 1⟩).length
      = max 1 ⌈rawDist (strokeStart ⟨0, 0, 0⟩).raw ⟨1, 0, 1⟩ /
          max 0.08 ((0.40 - min 0.30 (rawDist (strokeStart ⟨0, 0, 0⟩).raw ⟨1, 0, 1⟩
              / max 1 ((⟨1, 0, 1⟩ : RawPoint).t - (strokeStart ⟨0, 0, 0⟩).raw.t) * 0.50))
            / turnBoostOf (strokeStart ⟨0, 0, 0⟩).points ⟨1, 0, 1⟩)⌉₊ :=
  (strokeMove_resampling (strokeStart ⟨0, 0, 0⟩) ⟨1, 0, 1⟩ (by
    have harg : ((1 : ℝ) - 0) ^ 2 + ((0 : ℝ) - 0) ^ 2 = 1 := by norm_num
    have h1 : rawDist (strokeStart ⟨0, 0, 0⟩).raw ⟨1, 0, 1⟩ = 1 := by
      show Real.sqrt (((1 : ℝ) - 0) ^ 2 + ((0 : ℝ) - 0) ^ 2) = 1
      rw [harg, Real.sqrt_one]
    rw [h1]
    norm_num)).1
